import Mathlib

/-!
Shallow embedding of the oiplease forward-auth gateway (Rust) in Lean 4,
covering the session token codec (src/jwtc.rs), the session data model and
signing sites (src/jwt.rs, src/auth.rs), the policy resolver (src/config.rs)
and the validation/renewal state machine (src/validate.rs).  External
collaborators (zlib, HMAC signing, the OIDC provider, URL parsing) are
modelled as explicit oracle functions carried in an environment record.
-/

namespace Oiplease

/-! Generic list helpers mirroring the Rust standard library operations the
source uses (str::trim, str::split, slice::splitn, Vec::join, Vec::dedup,
and map lookups). -/

/-- Unicode White_Space test, as Rust char::is_whitespace (used by str::trim). -/
def rustIsWhitespace (c : Char) : Bool :=
  decide ((0x09 ≤ c.toNat ∧ c.toNat ≤ 0x0D) ∨ c.toNat = 0x20 ∨ c.toNat = 0x85 ∨
    c.toNat = 0xA0 ∨ c.toNat = 0x1680 ∨ (0x2000 ≤ c.toNat ∧ c.toNat ≤ 0x200A) ∨
    c.toNat = 0x2028 ∨ c.toNat = 0x2029 ∨ c.toNat = 0x202F ∨ c.toNat = 0x205F ∨
    c.toNat = 0x3000)

/-- Rust str::trim on a character list: drop whitespace from both ends. -/
def rustTrim (l : List Char) : List Char :=
  ((l.dropWhile rustIsWhitespace).reverse.dropWhile rustIsWhitespace).reverse

/-- Rust str::split(sep): full split on a separator, keeping empty pieces
(so the split of an empty string is one empty piece). -/
def rustSplit (sep : Char) : List Char → List (List Char)
  | [] => [[]]
  | c :: rest =>
    if c = sep then [] :: rustSplit sep rest
    else
      match rustSplit sep rest with
      | [] => [[c]]
      | p :: ps => (c :: p) :: ps

/-- Helper for splitn: the part before the first element satisfying p, and
the part after it. -/
def splitFirst (p : α → Bool) : List α → Option (List α × List α)
  | [] => none
  | a :: rest =>
    if p a then some ([], rest)
    else
      match splitFirst p rest with
      | none => none
      | some q => some (a :: q.1, q.2)

/-- Rust slice::splitn(n, p): at most n pieces; the last piece is the
remainder, not split further. -/
def rustSplitn : Nat → (α → Bool) → List α → List (List α)
  | 0, _, _ => []
  | 1, _, l => [l]
  | n + 2, p, l =>
    match splitFirst p l with
    | none => [l]
    | some q => q.1 :: rustSplitn (n + 1) p q.2

/-- Rust slice join (Vec::join): pieces interleaved with a separator slice. -/
def rustJoin (sep : List α) : List (List α) → List α
  | [] => []
  | [x] => x
  | x :: xs => x ++ sep ++ rustJoin sep xs

/-- Rust Vec::dedup: remove consecutive duplicate elements. -/
def rustDedup [DecidableEq α] : List α → List α
  | [] => []
  | [a] => [a]
  | a :: b :: rest =>
    if a = b then rustDedup (b :: rest) else a :: rustDedup (b :: rest)

/-- Lexicographic order on character lists by code point; on UTF-8 strings
this coincides with the byte-lexicographic order Rust uses for &str. -/
def lexLe : List Char → List Char → Bool
  | [], _ => true
  | _ :: _, [] => false
  | a :: as, b :: bs =>
    if a.toNat < b.toNat then true
    else if b.toNat < a.toNat then false
    else lexLe as bs

/-- The Rust &str order as a relation on strings. -/
abbrev strLe (a b : String) : Prop :=
  lexLe a.data b.data = true

/-- Rust Vec<&str>::sort(): a stable sort under the lexicographic order (any
two stable sorts of the same list agree elementwise, so insertion sort
models it exactly). -/
def sortStr (l : List String) : List String :=
  List.insertionSort strLe l

/-- Lookup in an association-list model of a string map. -/
def mapGet (m : List (String × String)) (k : String) : Option String :=
  (m.find? fun p => p.1 == k).map (·.2)

/-- Insert in an association-list model of a string map, replacing an
existing binding for the key. -/
def mapInsert (m : List (String × String)) (k v : String) : List (String × String) :=
  if m.any fun p => p.1 == k then
    m.map fun p => if p.1 == k then (k, v) else p
  else m ++ [(k, v)]

/-! Base64url codec: the base64 crate engine general_purpose::URL_SAFE_NO_PAD
used by src/jwtc.rs.  Bytes are natural numbers below 256, six-bit groups
(sextets) natural numbers below 64. -/

/-- The URL_SAFE alphabet character for a six-bit value. -/
def sextetToChar (s : Nat) : Char :=
  if s < 26 then Char.ofNat (65 + s)
  else if s < 52 then Char.ofNat (97 + (s - 26))
  else if s < 62 then Char.ofNat (48 + (s - 52))
  else if s = 62 then '-'
  else '_'

/-- Inverse alphabet lookup; none for a character outside the URL_SAFE
alphabet (such characters make decoding fail). -/
def charToSextet (c : Char) : Option Nat :=
  if 'A' ≤ c ∧ c ≤ 'Z' then some (c.toNat - 65)
  else if 'a' ≤ c ∧ c ≤ 'z' then some (c.toNat - 97 + 26)
  else if '0' ≤ c ∧ c ≤ '9' then some (c.toNat - 48 + 52)
  else if c = '-' then some 62
  else if c = '_' then some 63
  else none

/-- Encode bytes to six-bit groups, three bytes to four sextets, with the
standard short tails for one or two remaining bytes. -/
def encodeChunks : List Nat → List Nat
  | [] => []
  | [b0] => [b0 / 4, b0 % 4 * 16]
  | [b0, b1] => [b0 / 4, b0 % 4 * 16 + b1 / 16, b1 % 16 * 4]
  | b0 :: b1 :: b2 :: rest =>
    b0 / 4 :: (b0 % 4 * 16 + b1 / 16) :: (b1 % 16 * 4 + b2 / 64) :: b2 % 64 ::
      encodeChunks rest

/-- Decode six-bit groups back to bytes.  A tail of one sextet is an invalid
length; tails of two or three sextets require the unused trailing bits to be
zero (the engine's default decode_allow_trailing_bits = false). -/
def decodeChunks : List Nat → Except Unit (List Nat)
  | [] => Except.ok []
  | [_] => Except.error ()
  | [s0, s1] =>
    if s1 % 16 = 0 then Except.ok [s0 * 4 + s1 / 16] else Except.error ()
  | [s0, s1, s2] =>
    if s2 % 4 = 0 then Except.ok [s0 * 4 + s1 / 16, s1 % 16 * 16 + s2 / 4]
    else Except.error ()
  | s0 :: s1 :: s2 :: s3 :: rest =>
    match decodeChunks rest with
    | Except.error e => Except.error e
    | Except.ok r =>
      Except.ok ((s0 * 4 + s1 / 16) :: (s1 % 16 * 16 + s2 / 4) ::
        (s2 % 4 * 64 + s3) :: r)

/-- URL_SAFE_NO_PAD encoding of a byte list. -/
def b64encode (bytes : List Nat) : List Char :=
  (encodeChunks bytes).map sextetToChar

/-- URL_SAFE_NO_PAD decoding of a character list; fails on a character
outside the alphabet, an invalid length, or nonzero trailing bits. -/
def b64decode (s : List Char) : Except Unit (List Nat) :=
  match s.mapM charToSextet with
  | none => Except.error ()
  | some sextets => decodeChunks sextets

/-! The zlib compressor (flate2 ZlibEncoder/ZlibDecoder) is an external
library; it is modelled as a pair of functions with the contract that
inflation undoes deflation and that deflation produces bytes. -/

/-- Model of the flate2 zlib codec: deflate is total, inflate fails on
corrupt input, and inflate recovers what deflate produced. -/
structure Zlib where
  deflate : List Nat → List Nat
  inflate : List Nat → Except Unit (List Nat)
  inflate_deflate : ∀ b, (∀ x ∈ b, x < 256) → inflate (deflate b) = Except.ok b
  deflate_bytes : ∀ b, (∀ x ∈ b, x < 256) → ∀ x ∈ deflate b, x < 256

/-- The map-then-collect of compress: base64url decode every segment,
failing on the first segment that does not decode (Rust
collect over Results). -/
def collectDecode : List (List Char) → Except Unit (List (List Nat))
  | [] => Except.ok []
  | s :: rest =>
    match b64decode s with
    | Except.error e => Except.error e
    | Except.ok d =>
      match collectDecode rest with
      | Except.error e => Except.error e
      | Except.ok ds => Except.ok (d :: ds)

/-- Model of src/jwtc.rs compress: trim, split the token on dots, base64url
decode each segment, join the raw segments with a newline byte, deflate, and
base64url encode the result. -/
def compress (z : Zlib) (jwt : String) : Except Unit String :=
  match collectDecode (rustSplit '.' (rustTrim jwt.data)) with
  | Except.error e => Except.error e
  | Except.ok components =>
    let body := rustJoin [10] components
    Except.ok (String.mk (b64encode (z.deflate body)))

/-- Model of src/jwtc.rs decompress: trim, base64url decode, inflate, split
the bytes on newline bytes into at most 3 pieces, base64url encode each
piece, and join with dots. -/
def decompress (z : Zlib) (jwt : String) : Except Unit String :=
  match b64decode (rustTrim jwt.data) with
  | Except.error e => Except.error e
  | Except.ok compressed =>
    match z.inflate compressed with
    | Except.error e => Except.error e
    | Except.ok decompressed =>
      Except.ok (String.mk (rustJoin ['.']
        ((rustSplitn 3 (· == 10) decompressed).map b64encode)))

/-- The identity instance of the zlib model, used to evaluate the codec on
concrete inputs. -/
def idZlib : Zlib where
  deflate := id
  inflate := Except.ok
  inflate_deflate := fun _ _ => rfl
  deflate_bytes := fun _ h => h

/-! Data model: the session carried in the cookie (src/jwt.rs), the retained
upstream token response (openid::Bearer, the subset the code touches), and
the provider claims (src/oidc.rs). -/

/-- The retained subset of the provider token response (openid::Bearer). -/
structure Bearer where
  access_token : String
  refresh_token : Option String
  expires : Option Int
  id_token : Option String
deriving Repr, DecidableEq

/-- The session signed into the cookie (src/jwt.rs JwtClaims). -/
structure JwtClaims where
  issuer : String
  claims : List (String × String)
  iss : Int
  exp : Int
  roles : List String
  bearer : Bearer
deriving Repr, DecidableEq

/-- Model of JwtClaims::has_required_roles: every required role is held. -/
def JwtClaims.has_required_roles (c : JwtClaims) (roles : List String) : Bool :=
  roles.all fun x => c.roles.contains x

/-- A scalar-or-not JSON value as the code distinguishes them
(serde_json::Value in src/auth.rs); numbers carry their printed form. -/
inductive JsonValue
  | null
  | bool (b : Bool)
  | num (s : String)
  | str (s : String)
  | other
deriving Repr, DecidableEq

/-- Keycloak-style realm role container (src/oidc.rs RealmAccess). -/
structure RealmAccess where
  roles : List String

/-- The standard OIDC claims; only the userinfo object is consulted, via
serde_json::to_value, so it is modelled as a JSON object. -/
structure StandardClaims where
  userinfo : List (String × JsonValue)

/-- The provider ID-token claims (src/oidc.rs Claims). -/
structure Claims where
  realm_access : Option RealmAccess
  standard : StandardClaims

/-! Configuration and the policy resolver (src/config.rs).  Pre-compiled
regular expressions are modelled as opaque match predicates. -/

/-- Endpoint filter (src/config.rs EndpointFilter); each unset predicate
imposes no constraint. -/
structure EndpointFilter where
  hostname : Option String
  hostname_regex : Option (String → Bool)
  path : Option String
  path_prefix : Option String
  path_regex : Option (String → Bool)

/-- Model of EndpointFilter::matches: every set predicate must hold. -/
def EndpointFilter.matches (f : EndpointFilter) (host path : String) : Bool :=
  (match f.hostname with | some hostname => host == hostname | none => true) &&
  (match f.hostname_regex with | some re => re host | none => true) &&
  (match f.path with | some check_path => check_path == path | none => true) &&
  (match f.path_prefix with | some pre => pre.data.isPrefixOf path.data | none => true) &&
  (match f.path_regex with | some re => re path | none => true)

/-- Per-endpoint policy contribution (src/config.rs EndpointConfig). -/
structure EndpointConfig where
  required_roles : List String
  bypass : Bool

/-- A customization rule (src/config.rs Customization). -/
structure Customization where
  filter : EndpointFilter
  config : EndpointConfig

/-- The configuration fields the verified core reads (src/config.rs Config). -/
structure Config where
  public : String
  cookie_name : String
  success_header : String
  login_renew_seconds : Int
  login_cache_minutes : Int
  refresh_tokens : Bool
  honor_token_expiry : Bool
  cookie_secure : Bool
  cookie_domain : String
  required_roles : List String
  header_claims : List (String × String)
  customizations : List Customization

/-- The resolved policy for one request (src/config.rs Customized). -/
structure Customized where
  required_roles : List String
  bypass : Bool
deriving Repr, DecidableEq

/-- Model of Config::uncustomized: the global roles, no bypass. -/
def Config.uncustomized (cfg : Config) : Customized :=
  { required_roles := cfg.required_roles, bypass := false }

/-- Model of Config::customized: fold the matching rules over the global
roles, extending the role list and OR-ing the bypass flags, then sort and
deduplicate the roles. -/
def Config.customized (cfg : Config) (host path : String) : Customized :=
  let acc := cfg.customizations.foldl
    (fun (acc : List String × Bool) custom =>
      if custom.filter.matches host path then
        (acc.1 ++ custom.config.required_roles, acc.2 || custom.config.bypass)
      else acc)
    (cfg.required_roles, false)
  { required_roles := rustDedup (sortStr acc.1), bypass := acc.2 }

/-! HTTP-level values: the session cookie, and the axol error classes the
handlers return (each with its HTTP status). -/

/-- The built session cookie (cookie::Cookie as src/auth.rs build_cookie
fills it in). -/
structure Cookie where
  name : String
  value : String
  http_only : Bool
  secure : Bool
  max_age : Int
  domain : String
  path : String
deriving Repr, DecidableEq

/-- Model of Cookie::encoded rendered to a string. -/
def Cookie.encoded (c : Cookie) : String :=
  c.name ++ "=" ++ c.value

/-- The axol error values the validate handler produces. -/
inductive AxolError
  | unauthorized (msg : String)
  | badRequest (msg : String)
  | forbidden
deriving Repr, DecidableEq

/-- The HTTP status each axol error class maps to. -/
def AxolError.statusCode : AxolError → Nat
  | .unauthorized _ => 401
  | .badRequest _ => 400
  | .forbidden => 403

/-- Query parameters of the /auth callback (src/auth.rs OauthParameters);
the return URL is kept as its string rendering. -/
structure OauthParameters where
  code : String
  url : String

/-- The parts of a parsed original URL that validate consults. -/
structure ParsedUrl where
  host : Option String
  path : String

/-- The external collaborators: zlib, HMAC signing and verification, the
OIDC session manager calls, URL and query parsing, and the clock.  Each
Utc::now() call site reads its own field (now, now2, now3 in source
order). -/
structure Env where
  zlib : Zlib
  sign : JwtClaims → Except Unit String
  validateJwt : String → Except Unit JwtClaims
  renew : Bearer → Except Unit (Bearer × Claims)
  validate_code : String → String → Except Unit (Bearer × Claims)
  parseUrl : String → Option ParsedUrl
  parseParams : String → Option OauthParameters
  appendPair : String → String → String → String
  redirect_url : String
  now : Int
  now2 : Int
  now3 : Int

/-- Model of i64::checked_sub: none exactly when the difference leaves the
64-bit two's-complement range. -/
def i64_checked_sub (a b : Int) : Option Int :=
  if -(2 ^ 63) ≤ a - b ∧ a - b < 2 ^ 63 then some (a - b) else none

/-- Model of src/auth.rs build_cookie: sign the session, compress the signed
token, and build the cookie with the given max-age. -/
def build_cookie (env : Env) (cfg : Config) (claims : JwtClaims) (max_age : Int) :
    Except Unit Cookie :=
  match env.sign claims with
  | Except.error e => Except.error e
  | Except.ok signed =>
    match compress env.zlib signed with
    | Except.error e => Except.error e
    | Except.ok value =>
      Except.ok { name := cfg.cookie_name
                  value := value
                  http_only := true
                  secure := cfg.cookie_secure
                  max_age := max_age
                  domain := cfg.cookie_domain
                  path := "/" }

/-- Lookup in a JSON object modelled as an association list. -/
def jsonGet (m : List (String × JsonValue)) (k : String) : Option JsonValue :=
  (m.find? fun p => p.1 == k).map (·.2)

/-- The claim-extraction loop of src/auth.rs validate_oauth: for every
configured claim name, keep a null/boolean/number/string userinfo value as
its string form, drop other types. -/
def collectClaims (cfg : Config) (userinfo : List (String × JsonValue)) :
    List (String × String) :=
  cfg.header_claims.foldl
    (fun acc p =>
      match jsonGet userinfo p.2 with
      | none => acc
      | some JsonValue.null => acc
      | some (JsonValue.bool b) => mapInsert acc p.2 (if b then "true" else "false")
      | some (JsonValue.num n) => mapInsert acc p.2 n
      | some (JsonValue.str s) => mapInsert acc p.2 s
      | some JsonValue.other => acc)
    []

/-- Session construction of src/auth.rs validate_oauth (everything up to the
build_cookie call): parse the callback query, exchange the code, compute the
max-age, strip the upstream credentials, and assemble the session.  Returns
the return URL, the session to sign, and the max-age. -/
def oauth_session (env : Env) (cfg : Config) (query : Option String) :
    Except Unit (String × JwtClaims × Int) :=
  match query with
  | none => Except.error ()
  | some query =>
    match env.parseParams query with
    | none => Except.error ()
    | some parameters =>
      let redirect_uri := env.appendPair env.redirect_url "url" parameters.url
      match env.validate_code redirect_uri parameters.code with
      | Except.error e => Except.error e
      | Except.ok (bearer, claims) =>
        let roles := (claims.realm_access.map RealmAccess.roles).getD []
        let raw_userinfo := claims.standard.userinfo
        let now := env.now
        let max_age0 := cfg.login_cache_minutes * 60
        let max_age :=
          if cfg.honor_token_expiry then
            match bearer.expires with
            | some expires =>
              match i64_checked_sub expires env.now2 with
              | some new_age => min max_age0 new_age
              | none => max_age0
            | none => max_age0
          else max_age0
        let bearer := { bearer with
          id_token := none
          access_token := ""
          refresh_token := if cfg.refresh_tokens then bearer.refresh_token else none }
        let out : JwtClaims :=
          { issuer := cfg.public
            claims := collectClaims cfg raw_userinfo
            iss := now
            exp := now + max_age
            roles := roles
            bearer := bearer }
        Except.ok (parameters.url, out, max_age)

/-- Model of src/auth.rs validate_oauth: build the session, then sign it
into a cookie. -/
def validate_oauth (env : Env) (cfg : Config) (query : Option String) :
    Except Unit (String × Cookie) :=
  match oauth_session env cfg query with
  | Except.error e => Except.error e
  | Except.ok (url, out, max_age) =>
    match build_cookie env cfg out max_age with
    | Except.error e => Except.error e
    | Except.ok cookie => Except.ok (url, cookie)

/-! The validation/renewal state machine (src/validate.rs). -/

/-- The four outcomes of src/validate.rs PostValidation. -/
inductive PostValidation
  | Expired
  | Forbidden
  | Renewed (cookie : Cookie) (claims : JwtClaims)
  | Pass (claims : JwtClaims)
deriving Repr, DecidableEq

/-- The renewal branch of src/validate.rs postvalidate_jwt (lines 38 to 65):
call the session manager's renew, strip the upstream credentials, replace
the roles, compute the max-age, restamp the session, and sign it into a new
cookie. -/
def renewSession (env : Env) (cfg : Config) (claims : JwtClaims) :
    Except Unit (Cookie × JwtClaims) :=
  match env.renew claims.bearer with
  | Except.error e => Except.error e
  | Except.ok (bearer, new_claims) =>
    let bearer := { bearer with id_token := none, access_token := "" }
    let roles := (new_claims.realm_access.map RealmAccess.roles).getD []
    let now := env.now2
    let max_age0 := cfg.login_cache_minutes * 60
    let max_age :=
      if cfg.honor_token_expiry then
        match bearer.expires with
        | some expires =>
          match i64_checked_sub expires env.now3 with
          | some new_age => min max_age0 new_age
          | none => max_age0
        | none => max_age0
      else max_age0
    let claims' := { claims with
      bearer := bearer
      roles := roles
      iss := now
      exp := now + max_age }
    match build_cookie env cfg claims' max_age with
    | Except.error e => Except.error e
    | Except.ok ck => Except.ok (ck, claims')

/-- Model of src/validate.rs postvalidate_jwt: expiry check, role check,
then at most one renewal attempt, else pass. -/
def postvalidate_jwt (env : Env) (cfg : Config) (claims : JwtClaims)
    (customized : Customized) : Except Unit PostValidation :=
  let now := env.now
  if claims.exp < now ∨ claims.iss + cfg.login_cache_minutes * 60 < now then
    Except.ok PostValidation.Expired
  else if ¬ claims.has_required_roles customized.required_roles then
    Except.ok PostValidation.Forbidden
  else if cfg.refresh_tokens ∧ claims.bearer.refresh_token.isSome ∧
      claims.iss + cfg.login_renew_seconds < now then
    match renewSession env cfg claims with
    | Except.error e => Except.error e
    | Except.ok (ck, claims') => Except.ok (PostValidation.Renewed ck claims')
  else Except.ok (PostValidation.Pass claims)

/-- How many times a postvalidate_jwt run invokes the session manager's
renew: once in the renewal branch, never elsewhere. -/
def postvalidate_renew_calls (env : Env) (cfg : Config) (claims : JwtClaims)
    (customized : Customized) : Nat :=
  let now := env.now
  if claims.exp < now ∨ claims.iss + cfg.login_cache_minutes * 60 < now then 0
  else if ¬ claims.has_required_roles customized.required_roles then 0
  else if cfg.refresh_tokens ∧ claims.bearer.refresh_token.isSome ∧
      claims.iss + cfg.login_renew_seconds < now then 1
  else 0

/-- Policy resolution step at the head of src/validate.rs validate: parse
the x-original-url header; with a parsed URL resolve the customized policy
for its host and path, otherwise fall back to the uncustomized policy. -/
def resolve_policy (env : Env) (cfg : Config)
    (headers_in : List (String × String)) : Customized :=
  match (mapGet headers_in "x-original-url").bind fun x => env.parseUrl x with
  | some u => cfg.customized (u.host.getD "") u.path
  | none => cfg.uncustomized

/-- The success-header assembly at the tail of src/validate.rs validate: the
configured success header, then one header per configured claim present in
the session. -/
def successHeaders (cfg : Config) (claims : JwtClaims)
    (headers : List (String × String)) : List (String × String) :=
  let headers := mapInsert headers cfg.success_header "true"
  cfg.header_claims.foldl
    (fun acc p =>
      match mapGet claims.claims p.2 with
      | some value => mapInsert acc p.1 value
      | none => acc)
    headers

/-- Body of src/validate.rs validate after policy resolution: bypass check,
cookie extraction, decompression, signature validation, issuer check, then
the postvalidation state machine mapped to HTTP results. -/
def validate_with_customized (env : Env) (cfg : Config)
    (cookies : Option (List (String × String))) (customized : Customized) :
    Except AxolError (List (String × String)) :=
  if customized.bypass then Except.ok [] else
  match
    (match cookies with
     | none => Except.error (AxolError.unauthorized "missing cookies")
     | some header =>
       match mapGet header cfg.cookie_name with
       | none => Except.error (AxolError.unauthorized "no cookie set")
       | some c => Except.ok c : Except AxolError String) with
  | Except.error e => Except.error e
  | Except.ok claims =>
    match decompress env.zlib claims with
    | Except.error _ => Except.error (AxolError.badRequest "malformed jwt")
    | Except.ok decompressed =>
      match env.validateJwt decompressed with
      | Except.error _ => Except.error (AxolError.badRequest "invalid jwt")
      | Except.ok claims =>
        if claims.issuer ≠ cfg.public then
          Except.error (AxolError.unauthorized "bad issuer")
        else
          match postvalidate_jwt env cfg claims customized with
          | Except.error _ => Except.error (AxolError.unauthorized "token invalid")
          | Except.ok PostValidation.Expired =>
            Except.error (AxolError.unauthorized "expired token")
          | Except.ok PostValidation.Forbidden => Except.error AxolError.forbidden
          | Except.ok (PostValidation.Renewed new_cookie claims) =>
            Except.ok (successHeaders cfg claims [("set-cookie", new_cookie.encoded)])
          | Except.ok (PostValidation.Pass claims) =>
            Except.ok (successHeaders cfg claims [])

/-- Model of src/validate.rs validate: resolve the policy from the incoming
headers, then run the validation body. -/
def validate (env : Env) (cfg : Config) (cookies : Option (List (String × String)))
    (headers_in : List (String × String)) :
    Except AxolError (List (String × String)) :=
  validate_with_customized env cfg cookies (resolve_policy env cfg headers_in)

/-! Concrete instances used to evaluate the model on specific inputs. -/

/-- A concrete upstream token response. -/
def wBearer : Bearer :=
  { access_token := "at", refresh_token := some "rt", expires := some 5000,
    id_token := some "idt" }

/-- Concrete provider claims with realm roles and one userinfo entry. -/
def wClaims : Claims :=
  { realm_access := some { roles := ["user", "admin"] }
    standard := { userinfo := [("email", JsonValue.str "a@b.c")] } }

/-- A concrete session as validated out of a cookie. -/
def wJwt : JwtClaims :=
  { issuer := "https://pub", claims := [("email", "a@b.c")], iss := 1000,
    exp := 2000, roles := ["user"], bearer := wBearer }

/-- A concrete environment: identity zlib, deterministic signing and
verification, a provider that accepts everything, and a fixed clock. -/
def wEnv : Env :=
  { zlib := idZlib
    sign := fun _ => Except.ok "eyJh.eyJi.c2ln"
    validateJwt := fun _ => Except.ok wJwt
    renew := fun _ => Except.ok (wBearer, wClaims)
    validate_code := fun _ _ => Except.ok (wBearer, wClaims)
    parseUrl := fun s =>
      if s == "https://h/admin/x" then some { host := some "h", path := "/admin/x" }
      else none
    parseParams := fun _ => some { code := "c", url := "https://app/cb" }
    appendPair := fun u k v => u ++ "?" ++ k ++ "=" ++ v
    redirect_url := "https://pub/auth"
    now := 1500
    now2 := 1501
    now3 := 1502 }

/-- A concrete configuration with renewal and expiry-honoring enabled and a
bypass customization for the /admin path prefix. -/
def wCfg : Config :=
  { public := "https://pub"
    cookie_name := "oip"
    success_header := "x-auth-ok"
    login_renew_seconds := 300
    login_cache_minutes := 240
    refresh_tokens := true
    honor_token_expiry := true
    cookie_secure := true
    cookie_domain := "d"
    required_roles := ["user"]
    header_claims := [("x-email", "email")]
    customizations := [{
      filter := { hostname := none, hostname_regex := none, path := none,
                  path_prefix := some "/admin", path_regex := none }
      config := { required_roles := ["admin"], bypass := true } }] }

/-- The same configuration with renewal and expiry-honoring turned off. -/
def wCfgF : Config :=
  { wCfg with refresh_tokens := false, honor_token_expiry := false }

/-- The session wEnv/wCfgF mint at code exchange. -/
def wOutF : JwtClaims :=
  { issuer := "https://pub", claims := [("email", "a@b.c")], iss := 1500,
    exp := 15900, roles := ["user", "admin"],
    bearer := { access_token := "", refresh_token := none,
                expires := some 5000, id_token := none } }

/-- The cookie wEnv/wCfg produce at renewal of wJwt. -/
def wCk : Cookie :=
  { name := "oip", value := "eyJhCnsiYgpzaWc", http_only := true, secure := true,
    max_age := 3498, domain := "d", path := "/" }

/-- The renewed session wEnv/wCfg produce from wJwt. -/
def wCl : JwtClaims :=
  { issuer := "https://pub", claims := [("email", "a@b.c")], iss := 1501,
    exp := 4999, roles := ["user", "admin"],
    bearer := { access_token := "", refresh_token := some "rt",
                expires := some 5000, id_token := none } }

/-! Claim C1: stripping of upstream credentials at both signing sites. -/

/-- C1: whenever a Session is signed into a cookie (at code-exchange time in
validate_oauth and at renewal time in postvalidate_jwt), the upstream ID
token field is none and the upstream access token is the empty string in the
signed value; the refresh credential is cleared before signing unless the
refresh_tokens configuration flag is true. -/
theorem signed_sessions_strip_upstream_credentials
    (env : Env) (cfg : Config) (query : Option String)
    (claims : JwtClaims) (customized : Customized) :
    (∀ url out max_age,
      oauth_session env cfg query = Except.ok (url, out, max_age) →
        out.bearer.id_token = none ∧ out.bearer.access_token = "" ∧
          (cfg.refresh_tokens = false → out.bearer.refresh_token = none)) ∧
    (∀ ck cl,
      postvalidate_jwt env cfg claims customized =
          Except.ok (PostValidation.Renewed ck cl) →
        cl.bearer.id_token = none ∧ cl.bearer.access_token = "" ∧
          (cfg.refresh_tokens = false → cl.bearer.refresh_token = none)) := by
  constructor
  · intro url out max_age h
    simp only [oauth_session] at h
    split at h
    · exact Except.noConfusion h
    · split at h
      · exact Except.noConfusion h
      · split at h
        · exact Except.noConfusion h
        · simp only [Except.ok.injEq, Prod.mk.injEq] at h
          obtain ⟨-, h2, -⟩ := h
          subst h2
          refine ⟨rfl, rfl, fun hf => ?_⟩
          simp [hf]
  · intro ck cl h
    simp only [postvalidate_jwt] at h
    split at h
    · exact absurd h (by simp)
    · split at h
      · exact absurd h (by simp)
      · split at h
        · rename_i hcond
          split at h
          · exact Except.noConfusion h
          · rename_i bearer' claims' hrenew
            simp only [Except.ok.injEq, PostValidation.Renewed.injEq] at h
            obtain ⟨-, h2⟩ := h
            subst h2
            simp only [renewSession] at hrenew
            split at hrenew
            · exact Except.noConfusion hrenew
            · split at hrenew
              · exact Except.noConfusion hrenew
              · simp only [Except.ok.injEq, Prod.mk.injEq] at hrenew
                obtain ⟨-, h3⟩ := hrenew
                subst h3
                exact ⟨rfl, rfl, fun hf => absurd hcond.1 (by simp [hf])⟩
        · exact absurd h (by simp)

/-- Witness for C1: both signing sites run on the concrete environment, one
at code exchange with renewal disabled and one at renewal, and the stripping
holds on the concrete results. -/
theorem signed_sessions_strip_upstream_credentials_witness :
    oauth_session wEnv wCfgF (some "q") =
        Except.ok ("https://app/cb", wOutF, 14400) ∧
    (wOutF.bearer.id_token = none ∧ wOutF.bearer.access_token = "" ∧
      (wCfgF.refresh_tokens = false → wOutF.bearer.refresh_token = none)) ∧
    postvalidate_jwt wEnv wCfg wJwt (Config.uncustomized wCfg) =
        Except.ok (PostValidation.Renewed wCk wCl) ∧
    (wCl.bearer.id_token = none ∧ wCl.bearer.access_token = "" ∧
      (wCfg.refresh_tokens = false → wCl.bearer.refresh_token = none)) :=
  ⟨by rfl,
   (signed_sessions_strip_upstream_credentials wEnv wCfgF (some "q") wJwt
      (Config.uncustomized wCfg)).1 "https://app/cb" wOutF 14400 (by rfl),
   by rfl,
   (signed_sessions_strip_upstream_credentials wEnv wCfg (some "q") wJwt
      (Config.uncustomized wCfg)).2 wCk wCl (by rfl)⟩

/-! Claim C5: the relation between expiresAt and issuedAt. -/

/-- An upstream token response whose expiry lies before the current time. -/
def xBearer : Bearer :=
  { wBearer with expires := some 100 }

/-- The concrete environment with a provider returning the already-expired
upstream token response. -/
def xEnv : Env :=
  { wEnv with
    validate_code := fun _ _ => Except.ok (xBearer, wClaims)
    renew := fun _ => Except.ok (xBearer, wClaims) }

/-- Check used to state the C5 counterexample: a produced session has
expiresAt at least issuedAt (errors pass vacuously). -/
def sessionExpGeIss (r : Except Unit (String × JwtClaims × Int)) : Bool :=
  match r with
  | Except.ok (_, out, _) => out.iss ≤ out.exp
  | Except.error _ => true

/-- Counterexample to C5: with honor_token_expiry enabled and an upstream
expiry (100) earlier than the clock (1501), code exchange succeeds and mints
a session whose expiresAt (99) is strictly before its issuedAt (1500). -/
theorem session_exp_lt_iss_counterexample :
    sessionExpGeIss (oauth_session xEnv wCfg (some "q")) = false := by rfl

/-- C5 as amended: a produced Session satisfies expiresAt at least issuedAt
provided the cache lifetime is nonnegative and, whenever honor_token_expiry
is set and the session retains an upstream expiry, that expiry is not
earlier than the clock reading used for the max-age computation.  With an
already-expired upstream token and honor_token_expiry set, expiresAt can
fall before issuedAt (see the counterexample). -/
theorem session_exp_ge_iss
    (env : Env) (cfg : Config) (query : Option String)
    (claims : JwtClaims) (customized : Customized)
    (hcache : 0 ≤ cfg.login_cache_minutes) :
    (∀ url out max_age,
      oauth_session env cfg query = Except.ok (url, out, max_age) →
      (∀ e, cfg.honor_token_expiry = true → out.bearer.expires = some e →
        env.now2 ≤ e) →
      out.iss ≤ out.exp) ∧
    (∀ ck cl,
      postvalidate_jwt env cfg claims customized =
          Except.ok (PostValidation.Renewed ck cl) →
      (∀ e, cfg.honor_token_expiry = true → cl.bearer.expires = some e →
        env.now3 ≤ e) →
      cl.iss ≤ cl.exp) := by
  have hm : 0 ≤ cfg.login_cache_minutes * 60 := by positivity
  constructor
  · intro url out max_age h hexp
    simp only [oauth_session] at h
    split at h
    · exact Except.noConfusion h
    · split at h
      · exact Except.noConfusion h
      · split at h
        · exact Except.noConfusion h
        · rename_i bearer claims0 hvc
          simp only [Except.ok.injEq, Prod.mk.injEq] at h
          obtain ⟨-, h2, -⟩ := h
          subst h2
          simp only
          split
          · rename_i hhon
            split
            · rename_i e hee
              have he : env.now2 ≤ e := hexp e hhon (by simp [hee])
              simp only [i64_checked_sub]
              split
              · rename_i d hd
                split at hd
                · simp only [Option.some.injEq] at hd
                  omega
                · exact Option.noConfusion hd
              · omega
            · omega
          · omega
  · intro ck cl h hexp
    simp only [postvalidate_jwt] at h
    split at h
    · exact absurd h (by simp)
    · split at h
      · exact absurd h (by simp)
      · split at h
        · split at h
          · exact Except.noConfusion h
          · rename_i ck' cl' hrenew
            simp only [Except.ok.injEq, PostValidation.Renewed.injEq] at h
            obtain ⟨-, h2⟩ := h
            subst h2
            simp only [renewSession] at hrenew
            split at hrenew
            · exact Except.noConfusion hrenew
            · rename_i bearer nc hok
              split at hrenew
              · exact Except.noConfusion hrenew
              · simp only [Except.ok.injEq, Prod.mk.injEq] at hrenew
                obtain ⟨-, h3⟩ := hrenew
                subst h3
                simp only
                split
                · rename_i hhon
                  split
                  · rename_i e hee
                    have he : env.now3 ≤ e := hexp e hhon (by simp [hee])
                    simp only [i64_checked_sub]
                    split
                    · rename_i d hd
                      split at hd
                      · simp only [Option.some.injEq] at hd
                        omega
                      · exact Option.noConfusion hd
                    · omega
                  · omega
                · omega
        · exact absurd h (by simp)

/-- The session wEnv/wCfg mint at code exchange (expiry-honoring with an
upstream expiry after the clock). -/
def wOutT : JwtClaims :=
  { issuer := "https://pub", claims := [("email", "a@b.c")], iss := 1500,
    exp := 4999, roles := ["user", "admin"],
    bearer := { access_token := "", refresh_token := some "rt",
                expires := some 5000, id_token := none } }

/-- Witness for C5 as amended: on the concrete environment whose upstream
expiry (5000) is after the clock, both sites produce sessions with
expiresAt at least issuedAt. -/
theorem session_exp_ge_iss_witness :
    oauth_session wEnv wCfg (some "q") = Except.ok ("https://app/cb", wOutT, 3499) ∧
    wOutT.iss ≤ wOutT.exp ∧
    postvalidate_jwt wEnv wCfg wJwt (Config.uncustomized wCfg) =
      Except.ok (PostValidation.Renewed wCk wCl) ∧
    wCl.iss ≤ wCl.exp :=
  ⟨by rfl,
   (session_exp_ge_iss wEnv wCfg (some "q") wJwt (Config.uncustomized wCfg)
      (by decide)).1 "https://app/cb" wOutT 3499 (by rfl)
      (by intro e h1 h2; simp [wOutT] at h2; simp [wEnv]; omega),
   by rfl,
   (session_exp_ge_iss wEnv wCfg (some "q") wJwt (Config.uncustomized wCfg)
      (by decide)).2 wCk wCl (by rfl)
      (by intro e h1 h2; simp [wCl] at h2; simp [wEnv]; omega)⟩

/-! Claim C7: the max-age computation. -/

/-- C7: at both session-minting sites, the max-age is the cache lifetime in
seconds when honor_token_expiry is off or no upstream expiry is present, and
min(cache lifetime, upstream expiry minus the clock) when honor_token_expiry
is on and an upstream expiry is present (with the difference inside the
64-bit range). -/
theorem max_age_computation
    (env : Env) (cfg : Config) (query : Option String)
    (claims : JwtClaims) (customized : Customized) :
    (∀ url out max_age,
      oauth_session env cfg query = Except.ok (url, out, max_age) →
      (cfg.honor_token_expiry = false → max_age = cfg.login_cache_minutes * 60) ∧
      (cfg.honor_token_expiry = true → out.bearer.expires = none →
        max_age = cfg.login_cache_minutes * 60) ∧
      (∀ e, cfg.honor_token_expiry = true → out.bearer.expires = some e →
        -(2 ^ 63) ≤ e - env.now2 → e - env.now2 < 2 ^ 63 →
        max_age = min (cfg.login_cache_minutes * 60) (e - env.now2))) ∧
    (∀ ck cl,
      postvalidate_jwt env cfg claims customized =
          Except.ok (PostValidation.Renewed ck cl) →
      (cfg.honor_token_expiry = false → ck.max_age = cfg.login_cache_minutes * 60) ∧
      (cfg.honor_token_expiry = true → cl.bearer.expires = none →
        ck.max_age = cfg.login_cache_minutes * 60) ∧
      (∀ e, cfg.honor_token_expiry = true → cl.bearer.expires = some e →
        -(2 ^ 63) ≤ e - env.now3 → e - env.now3 < 2 ^ 63 →
        ck.max_age = min (cfg.login_cache_minutes * 60) (e - env.now3))) := by
  constructor
  · intro url out max_age h
    simp only [oauth_session] at h
    split at h
    · exact Except.noConfusion h
    · split at h
      · exact Except.noConfusion h
      · split at h
        · exact Except.noConfusion h
        · rename_i bearer claims0 hvc
          simp only [Except.ok.injEq, Prod.mk.injEq] at h
          obtain ⟨-, h2, h3⟩ := h
          subst h2
          subst h3
          refine ⟨fun hh => by simp [hh], fun hh he => ?_, fun e hh he h1 h2 => ?_⟩
          · simp only at he
            simp [hh, he]
          · simp only at he
            simp only [hh, he, if_true, i64_checked_sub]
            rw [if_pos ⟨h1, h2⟩]
  · intro ck cl h
    simp only [postvalidate_jwt] at h
    split at h
    · exact absurd h (by simp)
    · split at h
      · exact absurd h (by simp)
      · split at h
        · split at h
          · exact Except.noConfusion h
          · rename_i ck' cl' hrenew
            simp only [Except.ok.injEq, PostValidation.Renewed.injEq] at h
            obtain ⟨hck, hcl⟩ := h
            subst hck
            subst hcl
            simp only [renewSession] at hrenew
            split at hrenew
            · exact Except.noConfusion hrenew
            · rename_i bearer nc hok
              split at hrenew
              · exact Except.noConfusion hrenew
              · rename_i ckv hbuild
                simp only [Except.ok.injEq, Prod.mk.injEq] at hrenew
                obtain ⟨hck2, hcl2⟩ := hrenew
                subst hck2
                subst hcl2
                simp only [build_cookie] at hbuild
                split at hbuild
                · exact Except.noConfusion hbuild
                · split at hbuild
                  · exact Except.noConfusion hbuild
                  · simp only [Except.ok.injEq] at hbuild
                    subst hbuild
                    refine ⟨fun hh => by simp [hh], fun hh he => ?_,
                      fun e hh he h1 h2 => ?_⟩
                    · simp only at he
                      simp [hh, he]
                    · simp only at he
                      simp only [hh, he, if_true, i64_checked_sub]
                      rw [if_pos ⟨h1, h2⟩]
        · exact absurd h (by simp)

/-- Witness for C7: with honoring off the code-exchange max-age is the cache
lifetime; with honoring on and upstream expiry 5000 the renewal cookie
max-age is the min with the remaining lifetime. -/
theorem max_age_computation_witness :
    oauth_session wEnv wCfgF (some "q") = Except.ok ("https://app/cb", wOutF, 14400) ∧
    (14400 : Int) = wCfgF.login_cache_minutes * 60 ∧
    postvalidate_jwt wEnv wCfg wJwt (Config.uncustomized wCfg) =
      Except.ok (PostValidation.Renewed wCk wCl) ∧
    wCk.max_age = min (wCfg.login_cache_minutes * 60) (5000 - wEnv.now3) :=
  ⟨by rfl,
   ((max_age_computation wEnv wCfgF (some "q") wJwt (Config.uncustomized wCfg)).1
      "https://app/cb" wOutF 14400 (by rfl)).1 (by rfl),
   by rfl,
   ((max_age_computation wEnv wCfg (some "q") wJwt (Config.uncustomized wCfg)).2
      wCk wCl (by rfl)).2.2 5000 (by rfl) (by rfl) (by decide) (by decide)⟩

/-! Claim C3: the four outcomes of the session validator. -/

/-- The expiry condition at the head of postvalidate_jwt. -/
abbrev pvExpired (env : Env) (cfg : Config) (claims : JwtClaims) : Prop :=
  claims.exp < env.now ∨ claims.iss + cfg.login_cache_minutes * 60 < env.now

/-- The renewal-trigger condition of postvalidate_jwt: renewal enabled, a
refresh credential present, and the renew threshold passed. -/
abbrev pvRenewWanted (env : Env) (cfg : Config) (claims : JwtClaims) : Prop :=
  cfg.refresh_tokens = true ∧ claims.bearer.refresh_token.isSome = true ∧
    claims.iss + cfg.login_renew_seconds < env.now

/-- The environment whose provider rejects the refresh-token grant. -/
def fEnv : Env :=
  { wEnv with renew := fun _ => Except.error () }

/-- Counterexample to C3 as stated: when the renewal conditions hold but the
renewal network call fails, the validator produces none of the four
outcomes; it fails with a propagated error. -/
theorem postvalidate_error_counterexample :
    postvalidate_jwt fEnv wCfg wJwt (Config.uncustomized wCfg) =
      Except.error () := by rfl

/-- C3 as amended: the validator produces exactly one of the four outcomes
unless a triggered renewal attempt fails, in which case the whole validation
fails with the propagated error; the outcomes are decided in priority order
(Expired, then Forbidden, then Renewed, then Pass), and at most one renewal
attempt occurs per validation call. -/
theorem postvalidate_outcomes
    (env : Env) (cfg : Config) (claims : JwtClaims) (customized : Customized) :
    (postvalidate_jwt env cfg claims customized = Except.ok PostValidation.Expired ↔
      pvExpired env cfg claims) ∧
    (postvalidate_jwt env cfg claims customized = Except.ok PostValidation.Forbidden ↔
      (¬ pvExpired env cfg claims ∧
        claims.has_required_roles customized.required_roles = false)) ∧
    (∀ ck cl,
      postvalidate_jwt env cfg claims customized =
          Except.ok (PostValidation.Renewed ck cl) ↔
        (¬ pvExpired env cfg claims ∧
          claims.has_required_roles customized.required_roles = true ∧
          pvRenewWanted env cfg claims ∧
          renewSession env cfg claims = Except.ok (ck, cl))) ∧
    (postvalidate_jwt env cfg claims customized =
        Except.ok (PostValidation.Pass claims) ↔
      (¬ pvExpired env cfg claims ∧
        claims.has_required_roles customized.required_roles = true ∧
        ¬ pvRenewWanted env cfg claims)) ∧
    (∀ e,
      postvalidate_jwt env cfg claims customized = Except.error e ↔
        (¬ pvExpired env cfg claims ∧
          claims.has_required_roles customized.required_roles = true ∧
          pvRenewWanted env cfg claims ∧
          renewSession env cfg claims = Except.error e)) ∧
    postvalidate_renew_calls env cfg claims customized ≤ 1 := by
  have hcalls : postvalidate_renew_calls env cfg claims customized ≤ 1 := by
    simp only [postvalidate_renew_calls]
    split
    · omega
    · split
      · omega
      · split
        · omega
        · omega
  simp only [postvalidate_jwt]
  by_cases hexp : pvExpired env cfg claims
  · rw [if_pos hexp]
    refine ⟨by simp [hexp], by simp [hexp], fun ck cl => by simp [hexp],
      by simp [hexp], fun e => by simp [hexp], hcalls⟩
  · rw [if_neg hexp]
    by_cases hroles : claims.has_required_roles customized.required_roles
    · rw [if_neg (not_not_intro hroles)]
      by_cases hrw : pvRenewWanted env cfg claims
      · rw [if_pos hrw]
        cases hr : renewSession env cfg claims with
        | error e' =>
          exact ⟨by simp [hr, hexp], by simp [hr, hroles],
            fun ck cl => by simp [hr], by simp [hr, hrw],
            fun e => by simp [hr, hexp, hroles]; exact hrw, hcalls⟩
        | ok p =>
          obtain ⟨ck', cl'⟩ := p
          exact ⟨by simp [hr, hexp], by simp [hr, hroles],
            fun ck cl => by simp [hr, hexp, hroles]; intros; exact hrw,
            by simp [hr, hrw], fun e => by simp [hr], hcalls⟩
      · rw [if_neg hrw]
        exact ⟨by simp [hexp], by simp [hroles], fun ck cl => by simp [hrw],
          by simp [hexp, hroles, hrw], fun e => by simp [hrw], hcalls⟩
    · rw [if_pos hroles]
      rw [Bool.not_eq_true] at hroles
      exact ⟨by simp [hexp], by simp [hexp, hroles], fun ck cl => by simp [hroles],
        by simp [hroles], fun e => by simp [hroles], hcalls⟩

/-- Witness for C3 as amended: on the concrete environment the renewal
branch fires and the characterization yields the concrete Renewed outcome. -/
theorem postvalidate_outcomes_witness :
    postvalidate_jwt wEnv wCfg wJwt (Config.uncustomized wCfg) =
      Except.ok (PostValidation.Renewed wCk wCl) :=
  ((postvalidate_outcomes wEnv wCfg wJwt (Config.uncustomized wCfg)).2.2.1
    wCk wCl).mpr ⟨by decide, by decide, ⟨by decide, by decide, by decide⟩, by rfl⟩

/-! Claim C4: the error class for malformed or tampered cookies. -/

/-- Counterexample to C4: a cookie value that fails decompression makes
validate return a BadRequest (status 400), not an Unauthorized (401). -/
theorem invalid_cookie_status_counterexample :
    validate wEnv wCfg (some [("oip", "!")]) [] =
        Except.error (AxolError.badRequest "malformed jwt") ∧
    (AxolError.badRequest "malformed jwt").statusCode = 400 := by
  exact ⟨by rfl, by rfl⟩

/-- C4 as amended: with no bypass and a cookie present, a cookie value that
fails decompression or fails signature verification makes validate return a
BadRequest (400) result, never any other error class. -/
theorem invalid_cookie_yields_bad_request
    (env : Env) (cfg : Config) (m : List (String × String))
    (headers_in : List (String × String)) (v : String)
    (hb : (resolve_policy env cfg headers_in).bypass = false)
    (hc : mapGet m cfg.cookie_name = some v) :
    ((decompress env.zlib v).isOk = false →
      validate env cfg (some m) headers_in =
        Except.error (AxolError.badRequest "malformed jwt")) ∧
    (∀ d, decompress env.zlib v = Except.ok d → (env.validateJwt d).isOk = false →
      validate env cfg (some m) headers_in =
        Except.error (AxolError.badRequest "invalid jwt")) := by
  unfold validate validate_with_customized
  rw [hb]
  constructor
  · intro hdec
    cases hd : decompress env.zlib v with
    | error e => simp [hc, hd]
    | ok d => rw [hd] at hdec; exact absurd hdec (by simp [Except.isOk, Except.toBool])
  · intro d hd hjwt
    cases hj : env.validateJwt d with
    | error e => simp [hc, hd, hj]
    | ok c => rw [hj] at hjwt; exact absurd hjwt (by simp [Except.isOk, Except.toBool])

/-- Environment whose signature verification rejects every token. -/
def vEnv : Env :=
  { wEnv with validateJwt := fun _ => Except.error () }

/-- Witness for C4 as amended: both failure modes produce the concrete
BadRequest results (an undecodable cookie value, and a well-formed value
whose signature verification fails). -/
theorem invalid_cookie_yields_bad_request_witness :
    validate wEnv wCfg (some [("oip", "!")]) [] =
        Except.error (AxolError.badRequest "malformed jwt") ∧
    validate vEnv wCfg (some [("oip", "aGk")]) [] =
        Except.error (AxolError.badRequest "invalid jwt") :=
  ⟨(invalid_cookie_yields_bad_request wEnv wCfg [("oip", "!")] [] "!"
      (by rfl) (by rfl)).1 (by rfl),
   (invalid_cookie_yields_bad_request vEnv wCfg [("oip", "aGk")] [] "aGk"
      (by rfl) (by rfl)).2 "aGk" (by rfl) (by rfl)⟩

/-! Claim C9: bypass short-circuits before any cookie handling. -/

/-- C9: when the resolved policy has bypass set, validate returns success
with an empty header map for every cookie state (absent, invalid or
expired alike), without consulting the cookie. -/
theorem bypass_skips_cookie
    (env : Env) (cfg : Config) (headers_in : List (String × String))
    (h : (resolve_policy env cfg headers_in).bypass = true) :
    ∀ cookies, validate env cfg cookies headers_in = Except.ok [] := by
  intro cookies
  unfold validate validate_with_customized
  simp [h]

/-- Witness for C9: a request matching the /admin bypass rule succeeds with
no headers both with no cookie at all and with an undecodable cookie. -/
theorem bypass_skips_cookie_witness :
    validate wEnv wCfg none [("x-original-url", "https://h/admin/x")] =
        Except.ok [] ∧
    validate wEnv wCfg (some [("oip", "!")])
        [("x-original-url", "https://h/admin/x")] = Except.ok [] :=
  ⟨bypass_skips_cookie wEnv wCfg [("x-original-url", "https://h/admin/x")]
      (by rfl) none,
   bypass_skips_cookie wEnv wCfg [("x-original-url", "https://h/admin/x")]
      (by rfl) (some [("oip", "!")])⟩

/-! Claim C10: a missing or unparseable x-original-url header falls back to
the global policy. -/

/-- C10: when the x-original-url header is absent or fails URL parsing, the
resolved policy is exactly the global required roles with bypass off, no
customization rule is consulted, and validation proceeds (the request is not
rejected for the malformed header). -/
theorem missing_original_url_uses_global_policy
    (env : Env) (cfg : Config) (cookies : Option (List (String × String)))
    (headers_in : List (String × String))
    (h : mapGet headers_in "x-original-url" = none ∨
      ∃ s, mapGet headers_in "x-original-url" = some s ∧ env.parseUrl s = none) :
    resolve_policy env cfg headers_in = Config.uncustomized cfg ∧
    (resolve_policy env cfg headers_in).required_roles = cfg.required_roles ∧
    (resolve_policy env cfg headers_in).bypass = false ∧
    validate env cfg cookies headers_in =
      validate_with_customized env cfg cookies (Config.uncustomized cfg) := by
  have hr : resolve_policy env cfg headers_in = Config.uncustomized cfg := by
    unfold resolve_policy
    rcases h with h | ⟨s, hs, hp⟩
    · rw [h]
      rfl
    · rw [hs]
      simp [hp]
  exact ⟨hr, by rw [hr]; rfl, by rw [hr]; rfl, by unfold validate; rw [hr]⟩

/-- Witness for C10: the fallback fires both with the header absent and with
a header value that fails URL parsing. -/
theorem missing_original_url_uses_global_policy_witness :
    resolve_policy wEnv wCfg [] = Config.uncustomized wCfg ∧
    resolve_policy wEnv wCfg [("x-original-url", "bad")] =
      Config.uncustomized wCfg :=
  ⟨(missing_original_url_uses_global_policy wEnv wCfg none [] (Or.inl (by rfl))).1,
   (missing_original_url_uses_global_policy wEnv wCfg none
      [("x-original-url", "bad")] (Or.inr ⟨"bad", by rfl, by rfl⟩)).1⟩

/-! Claim C8: order lemmas for the string order and the dedup helper. -/

/-- The lexicographic comparison is total. -/
theorem lexLe_total : ∀ a b : List Char, lexLe a b = true ∨ lexLe b a = true := by
  intro a
  induction a with
  | nil => intro b; left; rfl
  | cons x xs ih =>
    intro b
    cases b with
    | nil => right; rfl
    | cons y ys =>
      simp only [lexLe]
      rcases Nat.lt_trichotomy x.toNat y.toNat with h | h | h
      · left; simp [h]
      · rcases ih ys with h2 | h2
        · left; simp [h, h2]
        · right; simp [h.symm, h2]
      · right; simp [h]

/-- The lexicographic comparison is transitive. -/
theorem lexLe_trans :
    ∀ a b c : List Char, lexLe a b = true → lexLe b c = true → lexLe a c = true := by
  intro a
  induction a with
  | nil => intro b c _ _; rfl
  | cons x xs ih =>
    intro b c hab hbc
    cases b with
    | nil => exact absurd hab (by simp [lexLe])
    | cons y ys =>
      cases c with
      | nil => exact absurd hbc (by simp [lexLe])
      | cons z zs =>
        simp only [lexLe] at hab hbc ⊢
        split at hab
        · rename_i hxy
          split at hbc
          · rename_i hyz
            simp [Nat.lt_trans hxy hyz]
          · split at hbc
            · exact absurd hbc (by simp)
            · rename_i h1 h2
              have : y.toNat = z.toNat := by omega
              simp [this ▸ hxy]
        · split at hab
          · exact absurd hab (by simp)
          · rename_i h1 h2
            have hxyeq : x.toNat = y.toNat := by omega
            split at hbc
            · rename_i hyz
              simp [hxyeq ▸ hyz]
            · split at hbc
              · exact absurd hbc (by simp)
              · rename_i h3 h4
                have hyzeq : y.toNat = z.toNat := by omega
                have : ¬ x.toNat < z.toNat := by omega
                have : ¬ z.toNat < x.toNat := by omega
                simp only [if_neg (by omega : ¬ x.toNat < z.toNat),
                  if_neg (by omega : ¬ z.toNat < x.toNat)]
                exact ih ys zs hab hbc

/-- The lexicographic comparison is antisymmetric. -/
theorem lexLe_antisymm :
    ∀ a b : List Char, lexLe a b = true → lexLe b a = true → a = b := by
  intro a
  induction a with
  | nil =>
    intro b _ hba
    cases b with
    | nil => rfl
    | cons y ys => exact absurd hba (by simp [lexLe])
  | cons x xs ih =>
    intro b hab hba
    cases b with
    | nil => exact absurd hab (by simp [lexLe])
    | cons y ys =>
      simp only [lexLe] at hab hba
      split at hab
      · rename_i hxy
        rw [if_neg (by omega), if_pos hxy] at hba
        exact absurd hba (by simp)
      · split at hab
        · exact absurd hab (by simp)
        · rename_i h1 h2
          have hxyeq : x.toNat = y.toNat := by omega
          rw [if_neg (by omega), if_neg (by omega)] at hba
          have hx : x = y := Char.ext (UInt32.ext hxyeq)
          rw [hx, ih ys hab hba]

instance : IsTotal String strLe :=
  ⟨fun a b => lexLe_total a.data b.data⟩

instance : IsTrans String strLe :=
  ⟨fun a b c => lexLe_trans a.data b.data c.data⟩

instance : IsAntisymm String strLe :=
  ⟨fun a b hab hba => by
    have h := lexLe_antisymm a.data b.data hab hba
    cases a
    cases b
    exact congrArg String.mk h⟩

/-- Membership is preserved by the adjacent-duplicate removal. -/
theorem mem_rustDedup [DecidableEq α] (x : α) :
    ∀ l : List α, x ∈ rustDedup l ↔ x ∈ l := by
  intro l
  induction l with
  | nil => simp [rustDedup]
  | cons a l ih =>
    cases l with
    | nil => simp [rustDedup]
    | cons b rest =>
      rw [rustDedup]
      split
      · rename_i hab
        rw [ih]
        subst hab
        simp
      · simp only [List.mem_cons] at ih ⊢
        rw [ih]

/-- On a sorted list, the adjacent-duplicate removal yields a sorted list
with no duplicates at all. -/
theorem sorted_nodup_rustDedup :
    ∀ l : List String, List.Sorted strLe l →
      List.Sorted strLe (rustDedup l) ∧ (rustDedup l).Nodup := by
  intro l
  induction l with
  | nil => intro _; simp [rustDedup]
  | cons a l ih =>
    intro hs
    cases l with
    | nil => simp [rustDedup]
    | cons b rest =>
      rw [rustDedup]
      split
      · exact ih (List.sorted_cons.mp hs).2
      · rename_i hab
        obtain ⟨hrel, hs'⟩ := List.sorted_cons.mp hs
        obtain ⟨ihs, ihn⟩ := ih hs'
        refine ⟨List.sorted_cons.mpr ⟨?_, ihs⟩, List.nodup_cons.mpr ⟨?_, ihn⟩⟩
        · intro x hx
          exact hrel x ((mem_rustDedup x _).mp hx)
        · intro hmem
          have hmem' := (mem_rustDedup a _).mp hmem
          rcases List.mem_cons.mp hmem' with h | h
          · exact hab h
          · obtain ⟨hrel', -⟩ := List.sorted_cons.mp hs'
            exact hab (antisymm (hrel b (List.mem_cons_self b rest)) (hrel' a h))

/-- Closed form of the customization fold: the accumulated roles are the
initial roles followed by the extra roles of the matching rules in order,
and the bypass flag is the OR of the matching rules' bypass overrides. -/
theorem customized_foldl (host path : String) :
    ∀ (rules : List Customization) (init : List String) (b : Bool),
      rules.foldl
        (fun (acc : List String × Bool) custom =>
          if custom.filter.matches host path then
            (acc.1 ++ custom.config.required_roles, acc.2 || custom.config.bypass)
          else acc)
        (init, b) =
      (init ++ (rules.filter fun c => c.filter.matches host path).flatMap
          (fun c => c.config.required_roles),
        b || rules.any fun c => c.filter.matches host path && c.config.bypass) := by
  intro rules
  induction rules with
  | nil => intro init b; simp
  | cons c rs ih =>
    intro init b
    by_cases hm : c.filter.matches host path
    · simp [hm, ih, List.append_assoc, Bool.or_assoc]
    · simp [hm, ih]

/-- A permutation of a list leaves List.any unchanged. -/
theorem perm_any (p : α → Bool) {l₁ l₂ : List α} (h : l₁.Perm l₂) :
    l₁.any p = l₂.any p := by
  apply Bool.eq_iff_iff.mpr
  simp only [List.any_eq_true]
  constructor
  · rintro ⟨x, hx, hp⟩
    exact ⟨x, h.mem_iff.mp hx, hp⟩
  · rintro ⟨x, hx, hp⟩
    exact ⟨x, h.mem_iff.mpr hx, hp⟩

/-- C8: the resolved policy is invariant under permutation of the rule
list; its required-roles list is the sorted, duplicate-free union of the
global roles and the extra roles of every matching rule, and its bypass
flag is the OR of the matching rules' bypass overrides. -/
theorem policy_merge_commutative
    (cfg : Config) (host path : String) (rules₂ : List Customization)
    (hperm : cfg.customizations.Perm rules₂) :
    Config.customized { cfg with customizations := rules₂ } host path =
      Config.customized cfg host path ∧
    List.Sorted strLe (Config.customized cfg host path).required_roles ∧
    (Config.customized cfg host path).required_roles.Nodup ∧
    (∀ r, r ∈ (Config.customized cfg host path).required_roles ↔
      (r ∈ cfg.required_roles ∨ ∃ c, c ∈ cfg.customizations ∧
        c.filter.matches host path = true ∧ r ∈ c.config.required_roles)) ∧
    (Config.customized cfg host path).bypass =
      cfg.customizations.any (fun c => c.filter.matches host path && c.config.bypass) := by
  simp only [Config.customized, customized_foldl]
  have hsorted := List.sorted_insertionSort strLe
    (cfg.required_roles ++ (cfg.customizations.filter
      fun c => c.filter.matches host path).flatMap fun c => c.config.required_roles)
  have hsn := sorted_nodup_rustDedup _ hsorted
  refine ⟨?_, hsn.1, hsn.2, ?_, ?_⟩
  · have hA : ((rules₂.filter fun c => c.filter.matches host path).flatMap
        fun c => c.config.required_roles).Perm
        ((cfg.customizations.filter fun c => c.filter.matches host path).flatMap
          fun c => c.config.required_roles) :=
      List.Perm.flatMap_right _ (hperm.filter _).symm
    have hL := hA.append_left cfg.required_roles
    have heq : sortStr (cfg.required_roles ++ (rules₂.filter
        fun c => c.filter.matches host path).flatMap fun c => c.config.required_roles) =
        sortStr (cfg.required_roles ++ (cfg.customizations.filter
          fun c => c.filter.matches host path).flatMap fun c => c.config.required_roles) := by
      apply List.eq_of_perm_of_sorted
        (((List.perm_insertionSort strLe _).trans hL).trans
          (List.perm_insertionSort strLe _).symm)
        (List.sorted_insertionSort strLe _) (List.sorted_insertionSort strLe _)
    rw [heq, perm_any _ hperm.symm]
  · intro r
    rw [mem_rustDedup]
    simp only [sortStr]
    rw [(List.perm_insertionSort strLe _).mem_iff]
    simp only [List.mem_append, List.mem_flatMap, List.mem_filter]
    constructor
    · rintro (h | ⟨c, ⟨hc, hm⟩, hr⟩)
      · exact Or.inl h
      · exact Or.inr ⟨c, hc, hm, hr⟩
    · rintro (h | ⟨c, hc, hm, hr⟩)
      · exact Or.inl h
      · exact Or.inr ⟨c, ⟨hc, hm⟩, hr⟩
  · exact Bool.false_or _

/-- A customization rule for the /admin path adding a role and bypass. -/
def wRuleA : Customization :=
  { filter := { hostname := none, hostname_regex := none, path := none,
                path_prefix := some "/admin", path_regex := none }
    config := { required_roles := ["admin"], bypass := true } }

/-- A customization rule keyed on the hostname adding another role. -/
def wRuleB : Customization :=
  { filter := { hostname := some "h", hostname_regex := none, path := none,
                path_prefix := none, path_regex := none }
    config := { required_roles := ["ops"], bypass := false } }

/-- The concrete configuration with two rules that both match. -/
def wCfg8 : Config :=
  { wCfg with customizations := [wRuleA, wRuleB] }

/-- Witness for C8: swapping the two concrete rules leaves the resolved
policy unchanged. -/
theorem policy_merge_commutative_witness :
    Config.customized { wCfg8 with customizations := [wRuleB, wRuleA] }
        "h" "/admin/x" =
      Config.customized wCfg8 "h" "/admin/x" :=
  (policy_merge_commutative wCfg8 "h" "/admin/x" [wRuleB, wRuleA]
    (List.Perm.swap wRuleB wRuleA [])).1

/-! Claims C2 and C6: correctness lemmas for the base64url codec. -/

/-- Alphabet characters are never whitespace and never the dot separator. -/
theorem sextetToChar_not_ws_dot (s : Nat) :
    rustIsWhitespace (sextetToChar s) = false ∧ ¬ sextetToChar s = '.' := by
  by_cases h : s < 64
  · revert h
    revert s
    decide
  · simp only [sextetToChar, if_neg (by omega : ¬ s < 26),
      if_neg (by omega : ¬ s < 52), if_neg (by omega : ¬ s < 62),
      if_neg (by omega : ¬ s = 62)]
    decide

/-- Decoding inverts the alphabet map on six-bit values. -/
theorem charToSextet_sextetToChar : ∀ s < 64, charToSextet (sextetToChar s) = some s := by
  decide

/-- Encoding bytes yields six-bit values. -/
theorem encodeChunks_lt64 :
    ∀ bytes : List Nat, (∀ b ∈ bytes, b < 256) →
      ∀ s ∈ encodeChunks bytes, s < 64 := by
  intro bytes
  induction bytes using encodeChunks.induct with
  | case1 => intro _ s hs; simp [encodeChunks] at hs
  | case2 b0 =>
    intro hb s hs
    have := hb b0 (by simp)
    simp only [encodeChunks, List.mem_cons, List.not_mem_nil, or_false] at hs
    rcases hs with h | h <;> omega
  | case3 b0 b1 =>
    intro hb s hs
    have h0 := hb b0 (by simp)
    have h1 := hb b1 (by simp)
    simp only [encodeChunks, List.mem_cons, List.not_mem_nil, or_false] at hs
    rcases hs with h | h | h <;> omega
  | case4 b0 b1 b2 rest ih =>
    intro hb s hs
    have h0 := hb b0 (by simp)
    have h1 := hb b1 (by simp)
    have h2 := hb b2 (by simp)
    simp only [encodeChunks, List.mem_cons] at hs
    rcases hs with h | h | h | h | h
    · omega
    · omega
    · omega
    · omega
    · exact ih (fun x hx => hb x (by simp [hx])) s h

/-- Decoding the six-bit groups of an encoding recovers the bytes. -/
theorem decodeChunks_encodeChunks :
    ∀ bytes : List Nat, (∀ b ∈ bytes, b < 256) →
      decodeChunks (encodeChunks bytes) = Except.ok bytes := by
  intro bytes
  induction bytes using encodeChunks.induct with
  | case1 => intro _; rfl
  | case2 b0 =>
    intro hb
    have := hb b0 (by simp)
    simp only [encodeChunks, decodeChunks]
    rw [if_pos (by omega)]
    simp only [Except.ok.injEq, List.cons.injEq, and_true]
    omega
  | case3 b0 b1 =>
    intro hb
    have h0 := hb b0 (by simp)
    have h1 := hb b1 (by simp)
    simp only [encodeChunks, decodeChunks]
    rw [if_pos (by omega)]
    simp only [Except.ok.injEq, List.cons.injEq, and_true]
    constructor
    · omega
    · omega
  | case4 b0 b1 b2 rest ih =>
    intro hb
    have h0 := hb b0 (by simp)
    have h1 := hb b1 (by simp)
    have h2 := hb b2 (by simp)
    have ih' := ih fun x hx => hb x (by simp [hx])
    simp only [encodeChunks, decodeChunks, ih']
    simp only [Except.ok.injEq, List.cons.injEq]
    refine ⟨by omega, by omega, by omega, trivial⟩

/-- Reading back the characters of an encoding recovers the six-bit values. -/
theorem mapM_charToSextet_map :
    ∀ ss : List Nat, (∀ s ∈ ss, s < 64) →
      (ss.map sextetToChar).mapM charToSextet = some ss := by
  intro ss
  induction ss with
  | nil => intro _; rfl
  | cons s rest ih =>
    intro hs
    have h0 := charToSextet_sextetToChar s (hs s (by simp))
    have ih' := ih fun x hx => hs x (by simp [hx])
    simp only [List.map_cons, List.mapM_cons, h0, ih', Option.pure_def,
      Option.bind_eq_bind, Option.bind_some]
    rfl

/-- The base64url decoder inverts the encoder on byte lists. -/
theorem b64decode_b64encode (bytes : List Nat) (hb : ∀ b ∈ bytes, b < 256) :
    b64decode (b64encode bytes) = Except.ok bytes := by
  unfold b64decode b64encode
  rw [mapM_charToSextet_map _ (encodeChunks_lt64 bytes hb)]
  exact decodeChunks_encodeChunks bytes hb

/-- A list without whitespace is unchanged by trimming. -/
theorem rustTrim_eq_self (l : List Char) (h : ∀ c ∈ l, rustIsWhitespace c = false) :
    rustTrim l = l := by
  have h1 : l.dropWhile rustIsWhitespace = l := by
    cases l with
    | nil => rfl
    | cons a t => simp [List.dropWhile_cons, h a (by simp)]
  rw [rustTrim, h1]
  have h2 : l.reverse.dropWhile rustIsWhitespace = l.reverse := by
    cases hr : l.reverse with
    | nil => rfl
    | cons a t =>
      have ha : a ∈ l := by
        have hm : a ∈ l.reverse := by rw [hr]; simp
        simpa using hm
      simp [List.dropWhile_cons, h a ha]
  rw [h2, List.reverse_reverse]

/-- Splitting a separator-free list yields that one piece. -/
theorem rustSplit_of_not_mem (sep : Char) (x : List Char) (hx : sep ∉ x) :
    rustSplit sep x = [x] := by
  induction x with
  | nil => rfl
  | cons ch rest ih =>
    rw [rustSplit, if_neg (fun hc => hx (by simp [hc]))]
    rw [ih fun hm => hx (by simp [hm])]

/-- Splitting past a separator peels off the separator-free piece before it. -/
theorem rustSplit_append (sep : Char) (x y : List Char) (hx : sep ∉ x) :
    rustSplit sep (x ++ sep :: y) = x :: rustSplit sep y := by
  induction x with
  | nil => simp [rustSplit]
  | cons ch rest ih =>
    simp only [List.cons_append]
    rw [rustSplit, if_neg (fun hc => hx (by simp [hc]))]
    rw [ih fun hm => hx (by simp [hm])]

/-- splitFirst finds the first matching element. -/
theorem splitFirst_append (p : α → Bool) (x : List α) (s : α) (y : List α)
    (hx : ∀ u ∈ x, p u = false) (hs : p s = true) :
    splitFirst p (x ++ s :: y) = some (x, y) := by
  induction x with
  | nil => simp [splitFirst, hs]
  | cons u rest ih =>
    simp only [List.cons_append]
    rw [splitFirst, if_neg (by simp [hx u (by simp)])]
    rw [ih fun v hv => hx v (by simp [hv])]

/-- splitFirst finds nothing in a list with no matching element. -/
theorem splitFirst_of_none (p : α → Bool) (x : List α)
    (hx : ∀ u ∈ x, p u = false) : splitFirst p x = none := by
  induction x with
  | nil => rfl
  | cons u rest ih =>
    rw [splitFirst, if_neg (by simp [hx u (by simp)])]
    rw [ih fun v hv => hx v (by simp [hv])]

/-- Splitting into at most three pieces recovers the three pieces when the
first two are separator-free (the third may contain separators). -/
theorem rustSplitn3_eq (p : α → Bool) (x y zz : List α) (s1 s2 : α)
    (hx : ∀ u ∈ x, p u = false) (hy : ∀ u ∈ y, p u = false)
    (h1 : p s1 = true) (h2 : p s2 = true) :
    rustSplitn 3 p (x ++ s1 :: (y ++ s2 :: zz)) = [x, y, zz] := by
  have e3 : ∀ l : List α, rustSplitn 3 p l =
      match splitFirst p l with
      | none => [l]
      | some q => q.1 :: rustSplitn 2 p q.2 := fun l => rfl
  have e2 : ∀ l : List α, rustSplitn 2 p l =
      match splitFirst p l with
      | none => [l]
      | some q => q.1 :: rustSplitn 1 p q.2 := fun l => rfl
  have e1 : ∀ l : List α, rustSplitn 1 p l = [l] := fun l => rfl
  rw [e3, splitFirst_append p x s1 _ hx h1]
  show x :: rustSplitn 2 p (y ++ s2 :: zz) = [x, y, zz]
  rw [e2, splitFirst_append p y s2 _ hy h2]
  show x :: y :: rustSplitn 1 p zz = [x, y, zz]
  rw [e1]

/-- C2: for every validly shaped signed token, whose three dot-separated
segments are base64url encodings of byte lists with no newline byte in the
first two (the JSON header and payload; the signature bytes are arbitrary),
decompressing the compression returns the original token byte-for-byte. -/
theorem compress_decompress_roundtrip
    (z : Zlib) (a b c : List Nat)
    (ha : ∀ x ∈ a, x < 256) (hb : ∀ x ∈ b, x < 256) (hc : ∀ x ∈ c, x < 256)
    (hna : 10 ∉ a) (hnb : 10 ∉ b) :
    (compress z (String.mk
        (b64encode a ++ '.' :: (b64encode b ++ '.' :: b64encode c)))).bind
      (decompress z) =
    Except.ok (String.mk
      (b64encode a ++ '.' :: (b64encode b ++ '.' :: b64encode c))) := by
  have hchar : ∀ bytes : List Nat, ∀ ch ∈ b64encode bytes,
      rustIsWhitespace ch = false ∧ ¬ ch = '.' := by
    intro bytes ch hch
    obtain ⟨s, -, rfl⟩ := List.mem_map.mp hch
    exact sextetToChar_not_ws_dot s
  have htws : ∀ ch ∈ b64encode a ++ '.' :: (b64encode b ++ '.' :: b64encode c),
      rustIsWhitespace ch = false := by
    intro ch hch
    simp only [List.mem_append, List.mem_cons] at hch
    rcases hch with h | h | h | h | h
    · exact (hchar a ch h).1
    · subst h; decide
    · exact (hchar b ch h).1
    · subst h; decide
    · exact (hchar c ch h).1
  have hbody : ∀ x ∈ a ++ 10 :: (b ++ 10 :: c), x < 256 := by
    intro x hx
    simp only [List.mem_append, List.mem_cons] at hx
    rcases hx with h | h | h | h | h
    · exact ha x h
    · omega
    · exact hb x h
    · omega
    · exact hc x h
  have hjoin : rustJoin [10] [a, b, c] = a ++ 10 :: (b ++ 10 :: c) := by
    simp [rustJoin]
  simp only [compress]
  rw [rustTrim_eq_self _ htws]
  rw [rustSplit_append '.' _ _ (fun hm => (hchar a '.' hm).2 rfl)]
  rw [rustSplit_append '.' _ _ (fun hm => (hchar b '.' hm).2 rfl)]
  rw [rustSplit_of_not_mem '.' _ (fun hm => (hchar c '.' hm).2 rfl)]
  simp only [collectDecode, b64decode_b64encode a ha, b64decode_b64encode b hb,
    b64decode_b64encode c hc, hjoin]
  simp only [Except.bind]
  simp only [decompress]
  rw [rustTrim_eq_self _ fun ch hch => (hchar _ ch hch).1]
  simp only [b64decode_b64encode _ (z.deflate_bytes _ hbody),
    z.inflate_deflate _ hbody]
  rw [rustSplitn3_eq (· == 10) a b c 10 10
    (fun u hu => by
      simp only [beq_eq_false_iff_ne, ne_eq]
      intro he
      exact hna (he ▸ hu))
    (fun u hu => by
      simp only [beq_eq_false_iff_ne, ne_eq]
      intro he
      exact hnb (he ▸ hu))
    (by simp) (by simp)]
  simp [rustJoin, List.append_assoc]

/-- Witness for C2: a concrete token whose signature segment decodes to
bytes containing an embedded newline byte round-trips. -/
theorem compress_decompress_roundtrip_witness :
    (compress idZlib (String.mk
        (b64encode [1, 2] ++ '.' :: (b64encode [3] ++ '.' :: b64encode [10, 4])))).bind
      (decompress idZlib) =
    Except.ok (String.mk
      (b64encode [1, 2] ++ '.' :: (b64encode [3] ++ '.' :: b64encode [10, 4]))) :=
  compress_decompress_roundtrip idZlib [1, 2] [3] [10, 4]
    (by decide) (by decide) (by decide) (by decide) (by decide)

/-! Claim C6: the error conditions of decompress. -/

/-- Counterexample to C6: an input whose inflated bytes contain no newline
byte splits into a single piece, and decompress still succeeds, returning a
result with one dot-free segment instead of failing. -/
theorem decompress_few_pieces_counterexample :
    decompress idZlib "aGk" = Except.ok "aGk" ∧
    (rustSplit '.' "aGk".data).length = 1 := by
  exact ⟨by rfl, by rfl⟩

/-- C6 as amended: decompress fails exactly when base64url decoding or
inflation fails; when both succeed it always succeeds, re-encoding the at
most 3 newline-separated pieces (an inflated payload with fewer than two
newline bytes yields fewer than 3 dot-separated segments, see the
counterexample). -/
theorem decompress_error_characterization (z : Zlib) (s : String) :
    (decompress z s = Except.error () ↔
      (b64decode (rustTrim s.data) = Except.error () ∨
        ∃ cp, b64decode (rustTrim s.data) = Except.ok cp ∧
          z.inflate cp = Except.error ())) ∧
    (∀ cp d, b64decode (rustTrim s.data) = Except.ok cp →
      z.inflate cp = Except.ok d →
      decompress z s = Except.ok (String.mk (rustJoin ['.']
        ((rustSplitn 3 (· == 10) d).map b64encode)))) := by
  unfold decompress
  cases hd : b64decode (rustTrim s.data) with
  | error e =>
    cases e
    constructor
    · simp
    · intro cp d hcp
      exact absurd hcp (by simp)
  | ok cp =>
    cases hi : z.inflate cp with
    | error e =>
      cases e
      constructor
      · simp only [hi]
        constructor
        · intro _
          exact Or.inr ⟨cp, rfl, hi⟩
        · intro _
          trivial
      · intro cp' d hcp hinf
        simp only [Except.ok.injEq] at hcp
        subst hcp
        rw [hinf] at hi
        exact absurd hi (by simp)
    | ok d =>
      constructor
      · simp only [hi]
        constructor
        · intro h
          exact absurd h (by simp)
        · rintro (h | ⟨cp', hcp, hinf⟩)
          · exact absurd h (by simp)
          · simp only [Except.ok.injEq] at hcp
            subst hcp
            rw [hinf] at hi
            exact absurd hi (by simp)
      · intro cp' d' hcp hinf
        simp only [Except.ok.injEq] at hcp
        subst hcp
        rw [hinf] at hi
        simp only [Except.ok.injEq] at hi
        subst hi
        simp [hinf]

/-- Witness for C6 as amended: a decoding failure yields the error, and a
newline-free success yields the single-segment result. -/
theorem decompress_error_characterization_witness :
    decompress idZlib "!" = Except.error () ∧
    decompress idZlib "aGk" = Except.ok (String.mk (rustJoin ['.']
      ((rustSplitn 3 (· == 10) [104, 105]).map b64encode))) :=
  ⟨(decompress_error_characterization idZlib "!").1.mpr (Or.inl (by rfl)),
   (decompress_error_characterization idZlib "aGk").2 [104, 105] [104, 105]
     (by rfl) (by rfl)⟩

end Oiplease
